import Mathlib

/-!
Verification development for the PTA EMR record-editing core
(`src/script.js` and the unnamed variant `src/unnamed/part_000`).

The embedding models, directly from the JavaScript source:
  * the CPT line-item text serializer of `showProgressNoteDetails`
    and the regex-based parser of `saveProgressNote` (script.js),
  * JavaScript `parseInt(...) || 0` coercion,
  * the progress-note total/units recomputation `updateTotals`
    and the three line-item mutation handlers (part_000),
  * the evaluation and progress-note lock toggles, the field-disabling
    helpers, signing with the evaluation-signature fallback (part_000),
  * goal-status assignment and progress-note creation.

Numbers are modelled as `Int`/`Nat` (JS integer arithmetic in the
exercised range is exact); fallible paths that the UI reports with
`alert(...)` and an early return are modelled with an explicit outcome
value.
-/

/-! ### Character classes (JS regex `\w`, `\s`, `\d` over the ASCII inputs used here) -/

/-- JS regex `\w`: ASCII letter, digit or underscore. -/
def isWordChar (c : Char) : Bool :=
  c.isAlpha || c.isDigit || c = '_'

/-- JS regex `\s` / `String.prototype.trim` whitespace, restricted to the
ASCII whitespace characters (the only ones arising in this development). -/
def isSpaceChar (c : Char) : Bool :=
  c = ' ' || c = '\t' || c = '\n' || c = '\r' || c = '\x0b' || c = '\x0c'

/-! ### Decimal digits: printing (JS number-to-string) and reading -/

/-- The decimal digit character for `n < 10` (other inputs give `'*'`,
never produced). -/
def digitChar (n : Nat) : Char :=
  match n with
  | 0 => '0' | 1 => '1' | 2 => '2' | 3 => '3' | 4 => '4'
  | 5 => '5' | 6 => '6' | 7 => '7' | 8 => '8' | 9 => '9'
  | _ => '*'

/-- Numeric value of a decimal digit character. -/
def digitVal (c : Char) : Nat :=
  c.toNat - 48

/-- Accumulating decimal reader: `digitsToNatAcc a ds` is the value of the
digit string `ds` appended to an already-read prefix of value `a`. -/
def digitsToNatAcc (a : Nat) : List Char → Nat
  | [] => a
  | c :: cs => digitsToNatAcc (10 * a + digitVal c) cs

/-- Value of a decimal digit string. -/
def digitsToNat (ds : List Char) : Nat :=
  digitsToNatAcc 0 ds

/-- Fuel-driven decimal printer (structural recursion; the fuel is always
sufficient at the call site in `natDigits`). -/
def natDigitsGo : Nat → Nat → List Char → List Char
  | 0, _, acc => acc
  | fuel + 1, n, acc =>
    if n < 10 then digitChar n :: acc
    else natDigitsGo fuel (n / 10) (digitChar (n % 10) :: acc)

/-- Decimal digit string of a natural number, most significant digit first;
models JS `String(n)` for a non-negative integer `n`. -/
def natDigits (n : Nat) : List Char :=
  natDigitsGo (n + 1) n []

/-- Models JS `String(i)` (template-literal interpolation) for an integer. -/
def intChars (i : Int) : List Char :=
  if i < 0 then '-' :: natDigits i.natAbs else natDigits i.toNat

/-! ### JS `parseInt` and the `|| 0` falsy-coercion idiom -/

/-- Longest leading run of decimal digits, `none` when there is none
(`parseInt` then yields `NaN`). -/
def leadingDigits (s : List Char) : Option (List Char) :=
  let d := s.takeWhile Char.isDigit
  if d.isEmpty then none else some d

/-- JS `parseInt(s, 10)` (and `parseInt(s)` on inputs without a `0x`
prefix, the only ones arising here): skip leading whitespace, optional
sign, then the longest decimal-digit prefix; `none` models `NaN`. -/
def jsParseInt (s : List Char) : Option Int :=
  let t := s.dropWhile isSpaceChar
  match t with
  | '-' :: u => (leadingDigits u).map (fun d => -(digitsToNat d : Int))
  | '+' :: u => (leadingDigits u).map (fun d => (digitsToNat d : Int))
  | u => (leadingDigits u).map (fun d => (digitsToNat d : Int))

/-- JS `x || 0` applied to a `parseInt` result: `NaN` (and `0` itself) give
`0`; every other number, negative ones included, is kept. -/
def jsOrZero (o : Option Int) : Int :=
  match o with
  | none => 0
  | some v => v

/-! ### `split(',')`, `trim()`, `join(', ')` -/

/-- JS `String.prototype.split` with a single-character separator
(`''.split(',') = ['']`, separators at the ends produce empty pieces). -/
def splitOnChar (sep : Char) : List Char → List (List Char)
  | [] => [[]]
  | c :: cs =>
    if c = sep then [] :: splitOnChar sep cs
    else
      match splitOnChar sep cs with
      | [] => [[c]]
      | h :: t => (c :: h) :: t

/-- JS `String.prototype.trim` (over the ASCII whitespace model). -/
def trimChars (s : List Char) : List Char :=
  ((s.dropWhile isSpaceChar).reverse.dropWhile isSpaceChar).reverse

/-- JS `Array.prototype.join(', ')`. -/
def joinCommaSpace : List (List Char) → List Char
  | [] => []
  | [e] => e
  | e :: es => e ++ ',' :: ' ' :: joinCommaSpace es

/-! ### The `saveProgressNote` entry regex

`entry.match(/(\w+)\s*\(?\s*(\d+)\s*min\)?/i)` from script.js, embedded as
a direct backtracking matcher: leftmost match position wins; at a match
position the two greedy groups `(\w+)` and `(\d+)` backtrack from longest
to shortest.  `\s*` runs are maximal (a shorter `\s*` run can never make a
following literal match, since no literal here is whitespace). -/

/-- After the `(\d+)` group: `\s*` then the literal `min` (case-insensitive,
per the `i` flag) then an optional `)` — the optional paren and the
unanchored tail always succeed. -/
def contAfterDigits (s : List Char) : Bool :=
  match s.dropWhile isSpaceChar with
  | m :: i :: n :: _ =>
    (m = 'm' || m = 'M') && (i = 'i' || i = 'I') && (n = 'n' || n = 'N')
  | _ => false

/-- Backtracking over the length of the `(\d+)` group: `d` is the maximal
digit run, `rest` what follows it; try `k` digits, longest first. -/
def dLoop (d : List Char) (rest : List Char) : Nat → Option (List Char)
  | 0 => none
  | k + 1 =>
    if contAfterDigits (d.drop (k + 1) ++ rest) then some (d.take (k + 1))
    else dLoop d rest k

/-- Match `(\d+)\s*min\)?` against `s`, returning the captured digits. -/
def tryDigits (s : List Char) : Option (List Char) :=
  let d := s.takeWhile Char.isDigit
  if d.isEmpty then none else dLoop d (s.dropWhile Char.isDigit) d.length

/-- After the `(\w+)` group: `\s*\(?\s*` then the digits-and-`min` tail. -/
def afterCode (s : List Char) : Option (List Char) :=
  let s1 := s.dropWhile isSpaceChar
  let s2 := match s1 with
            | '(' :: t => t
            | _ => s1
  tryDigits (s2.dropWhile isSpaceChar)

/-- Backtracking over the length of the `(\w+)` group: `w` is the maximal
word-character run, `rest` what follows it; try `k` characters, longest
first. -/
def wLoop (w : List Char) (rest : List Char) : Nat → Option (List Char × List Char)
  | 0 => none
  | k + 1 =>
    match afterCode (w.drop (k + 1) ++ rest) with
    | some d => some (w.take (k + 1), d)
    | none => wLoop w rest k

/-- Attempt a match starting exactly at the head of `s`. -/
def tryAt (s : List Char) : Option (List Char × List Char) :=
  let w := s.takeWhile isWordChar
  if w.isEmpty then none else wLoop w (s.dropWhile isWordChar) w.length

/-- Leftmost match of the entry pattern: returns the two captured groups
(code characters, digit characters) or `none`. -/
def findMatch : List Char → Option (List Char × List Char)
  | [] => none
  | c :: rest =>
    if isWordChar c then
      match tryAt (c :: rest) with
      | some r => some r
      | none => findMatch rest
    else findMatch rest

/-! ### Data model (section 3 of the source documentation, field names as
in the JSON records that both script variants read and write) -/

/-- One CPT billing line item of a progress note: `{ code, minutes }`. -/
structure CptLineItem where
  code : String
  minutes : Int
  deriving DecidableEq, Repr

/-- A goal entry: `{ goal, due_date, status }`. -/
structure Goal where
  goal : String
  due_date : String
  status : String
  deriving DecidableEq, Repr

/-- `evaluation.objective_measures`; `BergBalance` and `HR` are parsed as
integers by part_000's listeners, the rest are kept as text. -/
structure ObjectiveMeasures where
  MMT : String
  ROM : String
  BergBalance : Int
  HR : Int
  BP : String
  SpO2 : String
  deriving DecidableEq, Repr

/-- The evaluation record, with every field the two scripts read or write. -/
structure Evaluation where
  evaluation_date : String
  recertification_date : String
  account_number : String
  insurance : String
  policy_number : String
  referring_physician : String
  evaluation_therapist : String
  dob : String
  clinical_assessment : String
  functional_progress : String
  medications : String
  objective_measures : ObjectiveMeasures
  contraindications : String
  patient_consent : Bool
  informed_consent : Bool
  required_cpt_codes : List String
  plan_frequency : String
  short_term_goals : List Goal
  long_term_goals : List Goal
  therapist_signature : String
  physician_signature : String
  locked : Bool
  deriving DecidableEq, Repr

/-- A progress note with its derived billing fields and lock flag. -/
structure ProgressNote where
  date : String
  subjective : String
  objective : String
  assessment : String
  plan : String
  cpt_codes : List CptLineItem
  total_minutes : Int
  units : Int
  therapist_signature : String
  locked : Bool
  deriving DecidableEq, Repr

/-- A patient case record. -/
structure PatientRecord where
  id : String
  first_name : String
  last_name : String
  category : String
  condition : String
  icd10_med : String
  icd10_tx : String
  evaluation : Evaluation
  progress_notes : List ProgressNote
  deriving DecidableEq, Repr

/-! ### CPT line-item mutators and the totals recomputation (part_000,
`createNoteElement`: `updateTotals`, `renderCptRows` handlers, `addCptBtn`) -/

/-- Sum of the line-item minutes as accumulated by `updateTotals`
(`totalMin += parseInt(item.minutes) || 0`; on an integer-valued
`item.minutes`, JS `parseInt` stringifies and re-reads it, which is the
identity, and `|| 0` maps only `NaN`/`0` to `0`). -/
def minutesSum (l : List CptLineItem) : Int :=
  l.foldl (fun a it => a + it.minutes) 0

/-- part_000 `updateTotals`: `note.total_minutes = totalMin;
note.units = Math.floor(totalMin / 15)` (floor division on `Int`). -/
def updateTotals (n : ProgressNote) : ProgressNote :=
  let t := minutesSum n.cpt_codes
  { n with total_minutes := t, units := Int.fdiv t 15 }

/-- In-place update of the element at an index, as a JS handler holding a
reference to `note.cpt_codes[idx]` does (no effect out of bounds). -/
def modifyIdx (f : CptLineItem → CptLineItem) : Nat → List CptLineItem → List CptLineItem
  | _, [] => []
  | 0, x :: xs => f x :: xs
  | i + 1, x :: xs => x :: modifyIdx f i xs

/-- The four line-item mutation events of part_000's CPT table:
`addCptBtn` click, `minInput` input, `codeInput` input, `remove-cpt-btn`
click. -/
inductive CptOp where
  | add : CptOp
  | setMin : Nat → String → CptOp
  | setCode : Nat → String → CptOp
  | remove : Nat → CptOp
  deriving DecidableEq, Repr

/-- part_000's handlers:
`add` pushes `{ code: '', minutes: 0 }` then runs `updateTotals`;
`setMin` stores `parseInt(minInput.value) || 0` then runs `updateTotals`;
`setCode` stores the raw text (no recomputation — minutes untouched);
`remove` splices the row out then runs `updateTotals`. -/
def applyCptOp (n : ProgressNote) (op : CptOp) : ProgressNote :=
  match op with
  | .add =>
    updateTotals { n with cpt_codes := n.cpt_codes ++ [{ code := "", minutes := 0 }] }
  | .setMin idx raw =>
    let f := fun it => { it with minutes := jsOrZero (jsParseInt raw.data) }
    updateTotals { n with cpt_codes := modifyIdx f idx n.cpt_codes }
  | .setCode idx s =>
    { n with cpt_codes := modifyIdx (fun it => { it with code := s }) idx n.cpt_codes }
  | .remove idx =>
    updateTotals { n with cpt_codes := n.cpt_codes.eraseIdx idx }

/-- The derived-field invariant claimed for progress notes. -/
def noteInvariant (n : ProgressNote) : Prop :=
  n.total_minutes = minutesSum n.cpt_codes ∧ n.units = Int.fdiv n.total_minutes 15

instance (n : ProgressNote) : Decidable (noteInvariant n) := by
  unfold noteInvariant; infer_instance

/-! ### CPT text serialization and parsing (script.js,
`showProgressNoteDetails` line 277 and `saveProgressNote` lines 303-311) -/

/-- One displayed entry: the template literal
`${item.code} (${item.minutes} min)` — the code characters, then a blank
and an opening parenthesis, the printed minutes, a blank, `min`, and the
closing parenthesis. -/
def entryChars (it : CptLineItem) : List Char :=
  it.code.data ++ ' ' :: '(' :: (intChars it.minutes ++ ' ' :: 'm' :: 'i' :: 'n' :: [')'])

/-- `note.cpt_codes.map(item => `...`).join(', ')` as a character list. -/
def serializeCpt (l : List CptLineItem) : List Char :=
  joinCommaSpace (l.map entryChars)

/-- One entry through the regex: captured groups to a line item
(`parseInt(match[2], 10)` on the pure-digit capture is its value). -/
def matchEntry (e : List Char) : Option CptLineItem :=
  (findMatch e).map (fun g => { code := String.mk g.1, minutes := (digitsToNat g.2 : Int) })

/-- script.js `saveProgressNote` CPT parsing:
`value.split(',').map(s => s.trim()).filter(Boolean)`, then each entry is
matched and pushed only when the regex succeeds (non-matching entries are
dropped without an error). -/
def parseCpt (cs : List Char) : List CptLineItem :=
  ((((splitOnChar ',' cs).map trimChars).filter (fun e => !e.isEmpty)).filterMap matchEntry)

/-! ### Progress-note display, save, lock toggle (script.js) -/

/-- The nine form fields of the progress-note detail panel. -/
structure PNForm where
  date : String
  subjective : String
  objective : String
  assessment : String
  plan : String
  cptText : String
  totalMinutesText : String
  unitsText : String
  signature : String
  deriving DecidableEq, Repr

/-- `showProgressNoteDetails`: the panel contents for a note (`x || ''`
and `x || 0` fallbacks coincide with the plain field values here since
absent fields are modelled as `""`/the stored integer). -/
def displayNote (n : ProgressNote) : PNForm :=
  { date := n.date
    subjective := n.subjective
    objective := n.objective
    assessment := n.assessment
    plan := n.plan
    cptText := String.mk (serializeCpt n.cpt_codes)
    totalMinutesText := String.mk (intChars n.total_minutes)
    unitsText := String.mk (intChars n.units)
    signature := n.therapist_signature }

/-- script.js `saveProgressNote` (lines 294-319): writes every narrative
field from the form, replaces `cpt_codes` with the parse of the CPT text,
takes `total_minutes` and `units` from their own form fields via
`parseInt(..., 10) || 0`, writes the signature — with no check of
`note.locked` anywhere on the path. -/
def saveProgressNote (f : PNForm) (n : ProgressNote) : ProgressNote :=
  { date := f.date
    subjective := f.subjective
    objective := f.objective
    assessment := f.assessment
    plan := f.plan
    cpt_codes := parseCpt f.cptText.data
    total_minutes := jsOrZero (jsParseInt f.totalMinutesText.data)
    units := jsOrZero (jsParseInt f.unitsText.data)
    therapist_signature := f.signature
    locked := n.locked }

/-- Outcome of a lock toggle: `ok`, or the `alert`-and-return path taken
when no therapist signature is available (the spec's
`MissingSignatureError`). -/
inductive LockOutcome where
  | ok : LockOutcome
  | missingSignature : LockOutcome
  deriving DecidableEq, Repr

/-- A progress note together with the disabled state of its nine form
fields (`setProgressNoteFieldsDisabled` sets them all at once). -/
structure NoteSt where
  note : ProgressNote
  fieldsDisabled : Bool
  deriving DecidableEq, Repr

/-- script.js `toggleProgressNoteLock` (lines 322-346): a locked note is
unlocked unconditionally and its fields re-enabled; an unlocked note is
locked only when the signature form field (`pnSignature`, argument
`sigField`) is non-empty, otherwise the handler alerts and returns with
nothing changed. -/
def toggleNoteLock (sigField : String) (st : NoteSt) : NoteSt × LockOutcome :=
  if st.note.locked then
    ({ note := { st.note with locked := false }, fieldsDisabled := false }, .ok)
  else if sigField = "" then
    (st, .missingSignature)
  else
    ({ note := { st.note with locked := true }, fieldsDisabled := true }, .ok)

/-! ### Evaluation save, lock toggle, field disabling (script.js) -/

/-- The disabled flags that `setEvaluationFieldsDisabled` (lines 223-233)
drives: exactly the two signature inputs and the goal status dropdowns —
no other evaluation input is ever enabled or disabled by script.js. -/
structure EvalUI where
  therapistSigDisabled : Bool
  physicianSigDisabled : Bool
  goalSelectsDisabled : Bool
  deriving DecidableEq, Repr

/-- script.js `setEvaluationFieldsDisabled`. -/
def setEvaluationFieldsDisabled (d : Bool) (_u : EvalUI) : EvalUI :=
  { therapistSigDisabled := d, physicianSigDisabled := d, goalSelectsDisabled := d }

/-- An evaluation together with its editable-surface state. -/
structure EvalSt where
  eval : Evaluation
  ui : EvalUI
  deriving DecidableEq, Repr

/-- script.js `toggleEvaluationLock` (lines 193-214): unlocking is
unconditional and re-enables the fields; locking requires a non-empty
therapist-signature form field (`sigField`), else it alerts and returns
with nothing changed. -/
def toggleEvalLock (sigField : String) (st : EvalSt) : EvalSt × LockOutcome :=
  if st.eval.locked then
    ({ eval := { st.eval with locked := false },
       ui := setEvaluationFieldsDisabled false st.ui }, .ok)
  else if sigField = "" then
    (st, .missingSignature)
  else
    ({ eval := { st.eval with locked := true },
       ui := setEvaluationFieldsDisabled true st.ui }, .ok)

/-- script.js `saveEvaluation` (lines 182-190): writes the two signature
strings from their form fields; every other evaluation field is left
untouched ("others not editable"). -/
def saveEvaluation (tSig pSig : String) (e : Evaluation) : Evaluation :=
  { e with therapist_signature := tSig, physician_signature := pSig }

/-! ### Progress-note signing with fallback (part_000, `signBtn` handler
lines 349-357) -/

/-- part_000's sign handler: when the note's signature is blank it is
filled with `evaluation.therapist_signature || 'Signed'`, then
`setLockedState(true)` locks the note; the handler never rejects. -/
def signNote (evalSig : String) (n : ProgressNote) : ProgressNote :=
  let n1 :=
    if n.therapist_signature = "" then
      { n with therapist_signature := if evalSig = "" then "Signed" else evalSig }
    else n
  { n1 with locked := true }

/-- part_000's `setLockedState` (lines 330-348) applied through the
`unlockBtn` handler: unconditional, sets the flag and toggles every input
of the note element. Returns the note plus its inputs-disabled state. -/
def p0SetLockedState (locked : Bool) (n : ProgressNote) : ProgressNote × Bool :=
  ({ n with locked := locked }, locked)

/-! ### Goal status (both variants' status `select` change handlers) -/

/-- The option list both variants put in every goal status dropdown. -/
def goalStatusOptions : List String :=
  ["Continue", "Completed"]

/-- The `change` handler: `goal.status = select.value` — an unconditional
assignment with no validation. -/
def setGoalStatus (g : Goal) (v : String) : Goal :=
  { g with status := v }

/-! ### Progress-note creation (script.js `addProgressNote` lines 365-384,
part_000 `addNewProgressNote` lines 371-389 — identical note shape) -/

/-- The fresh note literal, with the supplied today-string as its date. -/
def blankNote (today : String) : ProgressNote :=
  { date := today
    subjective := ""
    objective := ""
    assessment := ""
    plan := ""
    cpt_codes := []
    total_minutes := 0
    units := 0
    therapist_signature := ""
    locked := false }

/-- `patients[currentPatientIndex].progress_notes.push(newNote)`. -/
def addProgressNote (today : String) (p : PatientRecord) : PatientRecord :=
  { p with progress_notes := p.progress_notes ++ [blankNote today] }

/-! ### Fixtures and the well-formedness predicate for CPT lists -/

/-- Line items the save/display round trip is claimed for: a non-empty
word-character code and non-negative integer minutes. -/
def goodItem (it : CptLineItem) : Prop :=
  it.code.data ≠ [] ∧ it.code.data.all isWordChar = true ∧ 0 ≤ it.minutes

instance (it : CptLineItem) : Decidable (goodItem it) := by
  unfold goodItem; infer_instance

/-- A concrete objective-measures record for witnesses. -/
def sampleMeasures : ObjectiveMeasures :=
  { MMT := "4/5", ROM := "WNL", BergBalance := 50, HR := 72, BP := "120/80", SpO2 := "98" }

/-- A concrete unlocked evaluation with a therapist signature. -/
def sampleEval : Evaluation :=
  { evaluation_date := "2026-01-02"
    recertification_date := "2026-02-02"
    account_number := "A-1001"
    insurance := "Acme Health"
    policy_number := "P-77"
    referring_physician := "Dr. Lee"
    evaluation_therapist := "J. Smith, PTA"
    dob := "1950-05-05"
    clinical_assessment := "Improving"
    functional_progress := "Amb 150 ft"
    medications := "None"
    objective_measures := sampleMeasures
    contraindications := "None"
    patient_consent := true
    informed_consent := true
    required_cpt_codes := ["97110", "97112"]
    plan_frequency := "3x/wk"
    short_term_goals := []
    long_term_goals := []
    therapist_signature := "J. Smith, PTA"
    physician_signature := ""
    locked := false }

/-- All evaluation inputs enabled (the pre-lock surface). -/
def enabledUI : EvalUI :=
  { therapistSigDisabled := false, physicianSigDisabled := false, goalSelectsDisabled := false }

/-- Concrete evaluation state for witnesses. -/
def sampleEvalSt : EvalSt :=
  { eval := sampleEval, ui := enabledUI }

/-- A concrete unlocked progress note with one line item. -/
def sampleNote1 : ProgressNote :=
  { blankNote ("2026-01-05") with
      cpt_codes := [{ code := "97110", minutes := 30 }]
      total_minutes := 30
      units := 2
      therapist_signature := "J. Smith, PTA" }

/-- Concrete progress-note state (unlocked, fields enabled) for witnesses. -/
def sampleNoteSt : NoteSt :=
  { note := sampleNote1, fieldsDisabled := false }

/-- A locked note whose CPT code contains a non-word character. -/
def lockedNote : ProgressNote :=
  { date := "2026-01-06"
    subjective := "feels better"
    objective := "tol tx well"
    assessment := "progressing"
    plan := "continue"
    cpt_codes := [{ code := "A-B", minutes := 30 }]
    total_minutes := 30
    units := 2
    therapist_signature := "T. Jones, PT"
    locked := true }

/-- A concrete goal for witnesses. -/
def sampleGoal : Goal :=
  { goal := "Ambulate 100 ft with RW", due_date := "2026-03-01", status := "Continue" }

/-! ## Claim theorems -/

/-! ### C1 — derived totals invariant -/

/-- `updateTotals` establishes the invariant on any note. -/
theorem noteInvariant_updateTotals (n : ProgressNote) : noteInvariant (updateTotals n) :=
  ⟨rfl, rfl⟩

/-- Changing only the `code` field of one line item leaves the minutes
fold unchanged. -/
theorem foldl_minutes_modifyIdx_code (s : String) :
    ∀ (l : List CptLineItem) (i : Nat) (a : Int),
      ((modifyIdx (fun it => { it with code := s }) i l).foldl (fun a it => a + it.minutes) a)
        = l.foldl (fun a it => a + it.minutes) a := by
  intro l
  induction l with
  | nil => intro i a; cases i <;> rfl
  | cons x xs ih =>
    intro i a
    cases i with
    | zero => simp [modifyIdx]
    | succ j => simpa [modifyIdx] using ih j (a + x.minutes)

/-- C1: starting from a progress note satisfying the derived-field
invariant (as a freshly created note does), any sequence of the
line-item mutation events — add, minutes update, code update, remove —
leaves `total_minutes` equal to the sum of the current line-item minutes
and `units = floor(total_minutes / 15)`: the three minute-affecting
mutators each end in `updateTotals`, and a code-only edit does not change
the sum. -/
theorem C1_total_units_invariant (ops : List CptOp) (n : ProgressNote)
    (h : noteInvariant n) : noteInvariant (ops.foldl applyCptOp n) := by
  induction ops generalizing n with
  | nil => exact h
  | cons op rest ih =>
    refine ih (applyCptOp n op) ?_
    cases op with
    | add => exact noteInvariant_updateTotals _
    | setMin idx raw => exact noteInvariant_updateTotals _
    | setCode idx s =>
      refine ⟨?_, h.2⟩
      show n.total_minutes = minutesSum (modifyIdx _ idx n.cpt_codes)
      rw [h.1]
      exact (foldl_minutes_modifyIdx_code s n.cpt_codes idx 0).symm
    | remove idx => exact noteInvariant_updateTotals _

/-- C1 witness: a concrete fresh note run through a concrete mutation
sequence keeps the invariant. -/
theorem C1_witness :
    noteInvariant
      (([CptOp.add, CptOp.setMin 0 ("25"), CptOp.add, CptOp.setCode 1 ("97112"),
         CptOp.setMin 1 ("20"), CptOp.remove 0] : List CptOp).foldl
        applyCptOp (blankNote ("2026-01-01"))) :=
  C1_total_units_invariant _ _ (by decide)

/-! ### C2 — progress-note lock with evaluation-signature fallback -/

/-- C2 counterexample: with the note signature and the evaluation
signature both empty, part_000's sign handler does not fail — it fills
the placeholder string `Signed` into the note signature and locks the
note (the claimed `MissingSignatureError` outcome does not occur). -/
theorem C2_counterexample :
    (blankNote ("2026-02-03")).therapist_signature = "" ∧
    (signNote ("") (blankNote ("2026-02-03"))).locked = true ∧
    (signNote ("") (blankNote ("2026-02-03"))).therapist_signature = "Signed" := by
  decide

/-- C2 amended: signing succeeds unconditionally; a non-empty note
signature is kept, an empty one is filled from the evaluation signature
when that is non-empty, and with the literal `Signed` when both are
empty. -/
theorem C2_lock_fallback (n : ProgressNote) (evalSig : String) :
    (n.therapist_signature ≠ "" → signNote evalSig n = { n with locked := true }) ∧
    (n.therapist_signature = "" → evalSig ≠ "" →
      signNote evalSig n = { n with therapist_signature := evalSig, locked := true }) ∧
    (n.therapist_signature = "" → evalSig = "" →
      signNote evalSig n = { n with therapist_signature := "Signed", locked := true }) := by
  refine ⟨fun h1 => ?_, fun h1 h2 => ?_, fun h1 h2 => ?_⟩ <;>
    simp [signNote, h1] <;> simp [h2]

/-- C2 witness: the spec's scenario — empty note signature, evaluation
signature `J. Smith, PTA` — locks the note with the copied signature. -/
theorem C2_witness :
    signNote ("J. Smith, PTA") (blankNote ("2026-02-03"))
      = { blankNote ("2026-02-03") with
            therapist_signature := "J. Smith, PTA", locked := true } :=
  (C2_lock_fallback _ _).2.1 rfl (by decide)

/-! ### C3 — evaluation lock signature precondition -/

/-- C3: on a draft (unlocked) evaluation, locking with an empty therapist
signature takes the alert-and-return path (`missingSignature`) and
changes nothing — `locked` stays false; with a non-empty signature the
evaluation transitions to locked with outcome `ok`. -/
theorem C3_eval_lock_precondition (st : EvalSt) (h : st.eval.locked = false) :
    toggleEvalLock ("") st = (st, .missingSignature) ∧
    (toggleEvalLock ("") st).1.eval.locked = false ∧
    (∀ sig : String, sig ≠ "" →
      (toggleEvalLock sig st).1.eval.locked = true ∧ (toggleEvalLock sig st).2 = .ok) := by
  refine ⟨?_, ?_, ?_⟩
  · simp [toggleEvalLock, h]
  · simp [toggleEvalLock, h]
  · intro sig hs
    constructor <;> simp [toggleEvalLock, h, hs]

/-- C3 witness at the concrete draft evaluation state. -/
theorem C3_witness :
    toggleEvalLock ("") sampleEvalSt = (sampleEvalSt, .missingSignature) ∧
    (toggleEvalLock ("J. Smith, PTA") sampleEvalSt).1.eval.locked = true :=
  ⟨(C3_eval_lock_precondition sampleEvalSt (by decide)).1,
   ((C3_eval_lock_precondition sampleEvalSt (by decide)).2.2 _ (by decide)).1⟩

/-! ### C4 — which fields the evaluation lock freezes -/

/-- C4 counterexample: locking the concrete draft evaluation disables the
two signature inputs (`setEvaluationFieldsDisabled(true)` lists exactly
`therapistSignature` and `physicianSignature`), so the signature fields
are not mutable during the locked state — the opposite of the claim. -/
theorem C4_counterexample :
    (toggleEvalLock ("J. Smith, PTA") sampleEvalSt).1.eval.locked = true ∧
    (toggleEvalLock ("J. Smith, PTA") sampleEvalSt).1.ui.therapistSigDisabled = true ∧
    (toggleEvalLock ("J. Smith, PTA") sampleEvalSt).1.ui.physicianSigDisabled = true := by
  decide

/-- C4 amended: locking disables the evaluation's entire editable surface
— the two signature inputs and the goal dropdowns — and the remaining
evaluation fields are immutable at all times in this variant, because the
only evaluation writer, `saveEvaluation`, writes nothing but the two
signature strings. -/
theorem C4_locked_surface (st : EvalSt) (sig : String)
    (hs : sig ≠ "") (hl : st.eval.locked = false) :
    (toggleEvalLock sig st).1.ui
        = { therapistSigDisabled := true, physicianSigDisabled := true,
            goalSelectsDisabled := true } ∧
    (∀ (t p : String) (e : Evaluation),
      (saveEvaluation t p e).therapist_signature = t ∧
      (saveEvaluation t p e).physician_signature = p ∧
      (saveEvaluation t p e).evaluation_date = e.evaluation_date ∧
      (saveEvaluation t p e).recertification_date = e.recertification_date ∧
      (saveEvaluation t p e).account_number = e.account_number ∧
      (saveEvaluation t p e).insurance = e.insurance ∧
      (saveEvaluation t p e).policy_number = e.policy_number ∧
      (saveEvaluation t p e).referring_physician = e.referring_physician ∧
      (saveEvaluation t p e).evaluation_therapist = e.evaluation_therapist ∧
      (saveEvaluation t p e).dob = e.dob ∧
      (saveEvaluation t p e).clinical_assessment = e.clinical_assessment ∧
      (saveEvaluation t p e).functional_progress = e.functional_progress ∧
      (saveEvaluation t p e).medications = e.medications ∧
      (saveEvaluation t p e).objective_measures = e.objective_measures ∧
      (saveEvaluation t p e).contraindications = e.contraindications ∧
      (saveEvaluation t p e).patient_consent = e.patient_consent ∧
      (saveEvaluation t p e).informed_consent = e.informed_consent ∧
      (saveEvaluation t p e).required_cpt_codes = e.required_cpt_codes ∧
      (saveEvaluation t p e).plan_frequency = e.plan_frequency ∧
      (saveEvaluation t p e).short_term_goals = e.short_term_goals ∧
      (saveEvaluation t p e).long_term_goals = e.long_term_goals ∧
      (saveEvaluation t p e).locked = e.locked) := by
  constructor
  · simp [toggleEvalLock, hl, hs, setEvaluationFieldsDisabled]
  · intro t p e
    refine ⟨rfl, rfl, rfl, rfl, rfl, rfl, rfl, rfl, rfl, rfl, rfl, rfl,
            rfl, rfl, rfl, rfl, rfl, rfl, rfl, rfl, rfl, rfl⟩

/-- C4 witness at the concrete draft evaluation state. -/
theorem C4_witness :
    (toggleEvalLock ("J. Smith, PTA") sampleEvalSt).1.ui
        = { therapistSigDisabled := true, physicianSigDisabled := true,
            goalSelectsDisabled := true } :=
  (C4_locked_surface sampleEvalSt ("J. Smith, PTA") (by decide) (by decide)).1

/-! ### C5 — mutation while locked -/

/-- C5 counterexample: `saveProgressNote` invoked on the locked note does
not fail and does not leave the note unchanged — re-parsing the displayed
CPT text `A-B (30 min)` turns the line item into `{ code: 'B' }`, a real
mutation of a locked note (no `LockedError` exists anywhere on the
path). -/
theorem C5_counterexample :
    lockedNote.locked = true ∧
    (saveProgressNote (displayNote lockedNote) lockedNote).cpt_codes
        = [{ code := "B", minutes := 30 }] ∧
    saveProgressNote (displayNote lockedNote) lockedNote ≠ lockedNote := by
  decide

/-- C5 amended: the lock is enforced only at the input surface — locking
disables the note's form fields, so the field-level edit handlers cannot
fire — while `saveProgressNote` itself performs no lock check: on a
locked note it still rewrites every field from the form (and therefore
can change a locked note when the displayed CPT text re-parses
differently). -/
theorem C5_lock_guard (sig : String) (st : NoteSt) (f : PNForm) (n : ProgressNote) :
    (st.note.locked = false → sig ≠ "" →
      (toggleNoteLock sig st).1.fieldsDisabled = true) ∧
    (n.locked = true →
      (saveProgressNote f n).locked = true ∧
      (saveProgressNote f n).cpt_codes = parseCpt f.cptText.data ∧
      (saveProgressNote f n).date = f.date ∧
      (saveProgressNote f n).subjective = f.subjective ∧
      (saveProgressNote f n).objective = f.objective ∧
      (saveProgressNote f n).assessment = f.assessment ∧
      (saveProgressNote f n).plan = f.plan ∧
      (saveProgressNote f n).therapist_signature = f.signature) := by
  constructor
  · intro hl hs
    simp [toggleNoteLock, hl, hs]
  · intro hl
    exact ⟨hl, rfl, rfl, rfl, rfl, rfl, rfl, rfl⟩

/-- C5 witness: the locked concrete note saved from its own display. -/
theorem C5_witness :
    (saveProgressNote (displayNote lockedNote) lockedNote).locked = true ∧
    (saveProgressNote (displayNote lockedNote) lockedNote).cpt_codes
        = parseCpt (displayNote lockedNote).cptText.data :=
  ⟨((C5_lock_guard ("x") sampleNoteSt (displayNote lockedNote) lockedNote).2 (by decide)).1,
   ((C5_lock_guard ("x") sampleNoteSt (displayNote lockedNote) lockedNote).2 (by decide)).2.1⟩

/-! ### C6 — unconditional unlock and the lock/unlock round trip -/

/-- C6: unlocking an evaluation or a progress note is unconditional (it
succeeds with `ok` for every signature-field content, empty included) and
re-enables the fields; part_000's `setLockedState(false)` likewise; and on
a consistent pre-lock state (unlocked, fields enabled) locking then
unlocking restores the state — mutation permissions included — exactly. -/
theorem C6_unlock_roundtrip :
    (∀ (sig : String) (st : NoteSt), st.note.locked = true →
      toggleNoteLock sig st
        = ({ note := { st.note with locked := false }, fieldsDisabled := false }, .ok)) ∧
    (∀ (sig : String) (st : EvalSt), st.eval.locked = true →
      toggleEvalLock sig st
        = ({ eval := { st.eval with locked := false },
             ui := setEvaluationFieldsDisabled false st.ui }, .ok)) ∧
    (∀ n : ProgressNote,
      (p0SetLockedState false n).1.locked = false ∧ (p0SetLockedState false n).2 = false) ∧
    (∀ (sig : String) (st : NoteSt), sig ≠ "" → st.note.locked = false →
      st.fieldsDisabled = false →
      (toggleNoteLock sig (toggleNoteLock sig st).1).1 = st) ∧
    (∀ (sig : String) (st : EvalSt), sig ≠ "" → st.eval.locked = false →
      st.ui = enabledUI →
      (toggleEvalLock sig (toggleEvalLock sig st).1).1 = st) := by
  refine ⟨?_, ?_, ?_, ?_, ?_⟩
  · intro sig st h; simp [toggleNoteLock, h]
  · intro sig st h; simp [toggleEvalLock, h]
  · intro n; exact ⟨rfl, rfl⟩
  · intro sig st hs hl hd
    obtain ⟨n, fd⟩ := st
    cases n
    simp_all [toggleNoteLock]
  · intro sig st hs hl hu
    obtain ⟨e, u⟩ := st
    cases e
    simp_all [toggleEvalLock, setEvaluationFieldsDisabled, enabledUI]

/-- C6 witness: concrete round trips on the sample note and evaluation
states. -/
theorem C6_witness :
    (toggleNoteLock ("J. Smith, PTA") (toggleNoteLock ("J. Smith, PTA") sampleNoteSt).1).1
        = sampleNoteSt ∧
    (toggleEvalLock ("J. Smith, PTA") (toggleEvalLock ("J. Smith, PTA") sampleEvalSt).1).1
        = sampleEvalSt :=
  ⟨C6_unlock_roundtrip.2.2.2.1 _ sampleNoteSt (by decide) (by decide) (by decide),
   C6_unlock_roundtrip.2.2.2.2 _ sampleEvalSt (by decide) (by decide) (by decide)⟩

/-! ### C7 — minutes coercion -/

/-- C7 counterexample: the minutes input `-5` is parseable, so
`parseInt('-5') || 0` keeps `-5` — a negative value is stored, not
coerced to 0. -/
theorem C7_counterexample :
    ((applyCptOp sampleNote1 (.setMin 0 ("-5"))).cpt_codes.map (fun it => it.minutes))
        = [-5] ∧
    ((-5 : Int) < 0) := by
  decide

/-- Updating index `i` touches only that position. -/
theorem modifyIdx_getElem? (f : CptLineItem → CptLineItem) :
    ∀ (l : List CptLineItem) (i : Nat), (modifyIdx f i l)[i]? = (l[i]?).map f := by
  intro l
  induction l with
  | nil => intro i; cases i <;> rfl
  | cons x xs ih =>
    intro i
    cases i with
    | zero => simp [modifyIdx]
    | succ j => simpa [modifyIdx] using ih j

/-- C7 amended: a minutes edit stores `parseInt(raw) || 0` — `0` exactly
when the input has no parseable integer prefix, and the parsed value
itself (negative values included) otherwise; a newly added line item
starts at minutes 0. -/
theorem C7_minutes_coercion (n : ProgressNote) (idx : Nat) (raw : String)
    (h : idx < n.cpt_codes.length) :
    (∃ it, ((applyCptOp n (.setMin idx raw)).cpt_codes)[idx]? = some it ∧
           it.minutes = jsOrZero (jsParseInt raw.data)) ∧
    (jsParseInt raw.data = none → jsOrZero (jsParseInt raw.data) = 0) ∧
    (∀ v : Int, jsParseInt raw.data = some v → jsOrZero (jsParseInt raw.data) = v) ∧
    ((applyCptOp n (.add)).cpt_codes.getLast? = some { code := "", minutes := 0 }) := by
  refine ⟨?_, ?_, ?_, ?_⟩
  · obtain ⟨it0, hit0⟩ : ∃ it0, (n.cpt_codes)[idx]? = some it0 :=
      ⟨n.cpt_codes[idx], List.getElem?_eq_some.mpr ⟨h, rfl⟩⟩
    refine ⟨{ it0 with minutes := jsOrZero (jsParseInt raw.data) }, ?_, rfl⟩
    show (modifyIdx _ idx n.cpt_codes)[idx]? = _
    rw [modifyIdx_getElem?, hit0]
    rfl
  · intro hnone; rw [hnone]; rfl
  · intro v hv; rw [hv]; rfl
  · show (n.cpt_codes ++ [({ code := "", minutes := 0 } : CptLineItem)]).getLast? = _
    simp

/-- C7 witness: the concrete note, an invalid input at index 0. -/
theorem C7_witness :
    (∃ it, ((applyCptOp sampleNote1 (.setMin 0 ("abc"))).cpt_codes)[0]? = some it ∧
           it.minutes = jsOrZero (jsParseInt ("abc").data)) ∧
    (jsParseInt ("abc").data = none → jsOrZero (jsParseInt ("abc").data) = 0) :=
  ⟨(C7_minutes_coercion sampleNote1 0 ("abc") (by decide)).1,
   (C7_minutes_coercion sampleNote1 0 ("abc") (by decide)).2.1⟩

/-! ### C8 — goal status validation -/

/-- C8 counterexample: the status change handler assigns `InProgress`
unchecked — no `InvalidEnumError`, and the goal's status does change. -/
theorem C8_counterexample :
    (setGoalStatus sampleGoal ("InProgress")).status = "InProgress" ∧
    ("InProgress" ∉ goalStatusOptions) ∧
    (setGoalStatus sampleGoal ("InProgress")).status ≠ sampleGoal.status := by
  decide

/-- C8 amended: `setGoalStatus` stores whatever string it is given, with
no validation, touching no other goal field; the dropdown offers exactly
`Continue` and `Completed`, so a value chosen from the UI's option list
always lands in that set. -/
theorem C8_goal_status_assignment (g : Goal) (v : String) :
    (setGoalStatus g v).status = v ∧
    (setGoalStatus g v).goal = g.goal ∧
    (setGoalStatus g v).due_date = g.due_date ∧
    (v ∈ goalStatusOptions → (setGoalStatus g v).status ∈ goalStatusOptions) := by
  exact ⟨rfl, rfl, rfl, fun hv => hv⟩

/-- C8 witness: a legal status value on the concrete goal. -/
theorem C8_witness :
    (setGoalStatus sampleGoal ("Completed")).status = "Completed" ∧
    (setGoalStatus sampleGoal ("Completed")).status ∈ goalStatusOptions :=
  ⟨(C8_goal_status_assignment sampleGoal ("Completed")).1,
   (C8_goal_status_assignment sampleGoal ("Completed")).2.2.2 (by decide)⟩

/-! ### C9 — adding a progress note -/

/-- C9: adding a progress note appends one note with today's date, empty
narrative fields, no line items, zero totals, an empty signature and
`locked = false`, leaving every existing note and every other field of
the patient record unchanged. -/
theorem C9_add_progress_note (t : String) (p : PatientRecord) :
    (addProgressNote t p).progress_notes.length = p.progress_notes.length + 1 ∧
    (addProgressNote t p).progress_notes.take p.progress_notes.length = p.progress_notes ∧
    (∃ nn, (addProgressNote t p).progress_notes.getLast? = some nn ∧
      nn.date = t ∧ nn.subjective = "" ∧ nn.objective = "" ∧ nn.assessment = "" ∧
      nn.plan = "" ∧ nn.cpt_codes = [] ∧ nn.total_minutes = 0 ∧ nn.units = 0 ∧
      nn.therapist_signature = "" ∧ nn.locked = false) ∧
    (addProgressNote t p).evaluation = p.evaluation ∧
    (addProgressNote t p).id = p.id ∧
    (addProgressNote t p).first_name = p.first_name ∧
    (addProgressNote t p).last_name = p.last_name ∧
    (addProgressNote t p).category = p.category ∧
    (addProgressNote t p).condition = p.condition ∧
    (addProgressNote t p).icd10_med = p.icd10_med ∧
    (addProgressNote t p).icd10_tx = p.icd10_tx := by
  refine ⟨?_, ?_, ⟨blankNote t, ?_, rfl, rfl, rfl, rfl, rfl, rfl, rfl, rfl, rfl, rfl⟩,
          rfl, rfl, rfl, rfl, rfl, rfl, rfl, rfl⟩
  · show (p.progress_notes ++ [blankNote t]).length = _
    simp
  · show (p.progress_notes ++ [blankNote t]).take p.progress_notes.length = _
    simp [List.take_left]
  · show (p.progress_notes ++ [blankNote t]).getLast? = _
    simp

/-! ### C10 — helper lemmas: character classes -/

/-- A word character is not whitespace. -/
theorem not_space_of_word {c : Char} (h : isWordChar c = true) : isSpaceChar c = false := by
  cases hs : isSpaceChar c with
  | false => rfl
  | true =>
    exfalso
    have hc := hs
    simp only [isSpaceChar, Bool.or_eq_true, decide_eq_true_eq] at hc
    rcases hc with ((((rfl | rfl) | rfl) | rfl) | rfl) | rfl <;> exact absurd h (by decide)

/-- A decimal digit is not whitespace. -/
theorem not_space_of_digit {c : Char} (h : c.isDigit = true) : isSpaceChar c = false := by
  cases hs : isSpaceChar c with
  | false => rfl
  | true =>
    exfalso
    have hc := hs
    simp only [isSpaceChar, Bool.or_eq_true, decide_eq_true_eq] at hc
    rcases hc with ((((rfl | rfl) | rfl) | rfl) | rfl) | rfl <;> exact absurd h (by decide)

/-- A decimal digit is a word character. -/
theorem word_of_digit {c : Char} (h : c.isDigit = true) : isWordChar c = true := by
  simp [isWordChar, h]

/-- A word character is not a comma. -/
theorem ne_comma_of_word {c : Char} (h : isWordChar c = true) : c ≠ ',' := by
  rintro rfl; exact absurd h (by decide)

/-- A decimal digit is not a comma. -/
theorem ne_comma_of_digit {c : Char} (h : c.isDigit = true) : c ≠ ',' := by
  rintro rfl; exact absurd h (by decide)

/-! ### C10 — helper lemmas: takeWhile / dropWhile on runs -/

/-- Taking while `p` over `l ++ c :: r` yields exactly `l` when all of `l`
satisfies `p` and `c` does not. -/
theorem takeWhile_append_of_all {p : Char → Bool} :
    ∀ (l : List Char) (c : Char) (r : List Char),
      (∀ x ∈ l, p x = true) → p c = false → (l ++ c :: r).takeWhile p = l := by
  intro l
  induction l with
  | nil => intro c r _ hc; simp [List.takeWhile_cons, hc]
  | cons a l ih =>
    intro c r h hc
    have ha : p a = true := h a (List.mem_cons_self a l)
    simp [List.takeWhile_cons, ha, ih c r (fun x hx => h x (List.mem_cons_of_mem a hx)) hc]

/-- Dropping while `p` over `l ++ c :: r` yields `c :: r` under the same
hypotheses. -/
theorem dropWhile_append_of_all {p : Char → Bool} :
    ∀ (l : List Char) (c : Char) (r : List Char),
      (∀ x ∈ l, p x = true) → p c = false → (l ++ c :: r).dropWhile p = c :: r := by
  intro l
  induction l with
  | nil => intro c r _ hc; simp [List.dropWhile_cons, hc]
  | cons a l ih =>
    intro c r h hc
    have ha : p a = true := h a (List.mem_cons_self a l)
    simp [List.dropWhile_cons, ha, ih c r (fun x hx => h x (List.mem_cons_of_mem a hx)) hc]

/-! ### C10 — helper lemmas: split -/

/-- `splitOnChar` never returns the empty list of pieces. -/
theorem splitOnChar_ne_nil (sep : Char) : ∀ l, splitOnChar sep l ≠ [] := by
  intro l
  induction l with
  | nil => simp [splitOnChar]
  | cons c cs ih =>
    by_cases h : c = sep
    · simp [splitOnChar, h]
    · simp only [splitOnChar, if_neg h]
      cases hs : splitOnChar sep cs <;> simp

/-- A separator-free string splits into the single piece that it is. -/
theorem splitOnChar_no_sep (sep : Char) :
    ∀ l, (∀ c ∈ l, c ≠ sep) → splitOnChar sep l = [l] := by
  intro l
  induction l with
  | nil => intro _; rfl
  | cons c cs ih =>
    intro h
    have hc : ¬ (c = sep) := h c (List.mem_cons_self c cs)
    have hcs : splitOnChar sep cs = [cs] := ih (fun x hx => h x (List.mem_cons_of_mem c hx))
    simp [splitOnChar, hc, hcs]

/-- Splitting distributes over a separator occurrence. -/
theorem splitOnChar_append (sep : Char) :
    ∀ l1 l2, splitOnChar sep (l1 ++ sep :: l2) = splitOnChar sep l1 ++ splitOnChar sep l2 := by
  intro l1
  induction l1 with
  | nil => intro l2; simp [splitOnChar]
  | cons c cs ih =>
    intro l2
    by_cases h : c = sep
    · subst h; simp [splitOnChar, ih]
    · obtain ⟨a, b, hab⟩ : ∃ a b, splitOnChar sep (cs ++ sep :: l2) = a :: b := by
        cases hs : splitOnChar sep (cs ++ sep :: l2) with
        | nil => exact absurd hs (splitOnChar_ne_nil sep _)
        | cons a b => exact ⟨a, b, rfl⟩
      obtain ⟨a2, b2, hab2⟩ : ∃ a b, splitOnChar sep cs = a :: b := by
        cases hs : splitOnChar sep cs with
        | nil => exact absurd hs (splitOnChar_ne_nil sep _)
        | cons a b => exact ⟨a, b, rfl⟩
      have h1 := ih l2
      rw [hab, hab2] at h1
      have ha : a = a2 := by
        have := congrArg (fun l => l.head?) h1
        simpa using this
      have hb : b = b2 ++ splitOnChar sep l2 := by
        have := congrArg (fun l => l.tail) h1
        simpa using this
      show splitOnChar sep (c :: (cs ++ sep :: l2)) = splitOnChar sep (c :: cs) ++ _
      simp only [splitOnChar, if_neg h, hab, hab2]
      simp [ha, hb]

/-! ### C10 — helper lemmas: trim -/

/-- Trim drops one leading blank. -/
theorem trimChars_cons_space (l : List Char) : trimChars (' ' :: l) = trimChars l := by
  have hsp : isSpaceChar ' ' = true := by decide
  simp [trimChars, List.dropWhile_cons, hsp]

/-- Trim is the identity when both ends are already clean. -/
theorem trimChars_eq_self {l : List Char}
    (h1 : l.dropWhile isSpaceChar = l)
    (h2 : l.reverse.dropWhile isSpaceChar = l.reverse) : trimChars l = l := by
  unfold trimChars
  rw [h1, h2, List.reverse_reverse]

/-! ### C10 — helper lemmas: the decimal printer -/

/-- `digitVal` inverts `digitChar` on actual digits. -/
theorem digitVal_digitChar : ∀ m, m < 10 → digitVal (digitChar m) = m := by decide

/-- `digitChar` yields digit characters. -/
theorem digitChar_isDigit : ∀ m, m < 10 → (digitChar m).isDigit = true := by decide

/-- The printer only grows its accumulator. -/
theorem natDigitsGo_length :
    ∀ (fuel n : Nat) (acc : List Char), acc.length ≤ (natDigitsGo fuel n acc).length := by
  intro fuel
  induction fuel with
  | zero => intro n acc; simp [natDigitsGo]
  | succ f ih =>
    intro n acc
    by_cases h : n < 10
    · simp [natDigitsGo, h]
    · simp only [natDigitsGo, if_neg h]
      exact le_trans (by simp) (ih (n / 10) (digitChar (n % 10) :: acc))

/-- A printed number has at least one digit. -/
theorem natDigits_ne_nil (n : Nat) : natDigits n ≠ [] := by
  show natDigitsGo (n + 1) n [] ≠ []
  by_cases h : n < 10
  · simp [natDigitsGo, h]
  · simp only [natDigitsGo, if_neg h]
    intro hnil
    have hlen := natDigitsGo_length n (n / 10) [digitChar (n % 10)]
    rw [hnil] at hlen
    simp at hlen

/-- Every character the printer emits is a decimal digit. -/
theorem natDigitsGo_all_digit :
    ∀ (fuel n : Nat) (acc : List Char), acc.all Char.isDigit = true →
      (natDigitsGo fuel n acc).all Char.isDigit = true := by
  intro fuel
  induction fuel with
  | zero => intro n acc h; simpa [natDigitsGo] using h
  | succ f ih =>
    intro n acc h
    by_cases hn : n < 10
    · simp [natDigitsGo, hn, List.all_cons, digitChar_isDigit n hn, h]
    · simp only [natDigitsGo, if_neg hn]
      refine ih _ _ ?_
      simp [List.all_cons, digitChar_isDigit (n % 10) (by omega), h]

/-- Every character of a printed number is a decimal digit. -/
theorem natDigits_all_digit (n : Nat) : (natDigits n).all Char.isDigit = true :=
  natDigitsGo_all_digit (n + 1) n [] rfl

/-- Reading back what the printer wrote (with enough fuel) gives the
number in front of the untouched accumulator. -/
theorem natDigitsGo_sound :
    ∀ (fuel n : Nat) (acc : List Char), n ≤ fuel →
      digitsToNatAcc 0 (natDigitsGo fuel n acc) = digitsToNatAcc n acc := by
  intro fuel
  induction fuel with
  | zero =>
    intro n acc h
    have hn : n = 0 := Nat.le_zero.mp h
    subst hn
    rfl
  | succ f ih =>
    intro n acc h
    by_cases hn : n < 10
    · simp only [natDigitsGo, if_pos hn]
      show digitsToNatAcc (10 * 0 + digitVal (digitChar n)) acc = digitsToNatAcc n acc
      rw [digitVal_digitChar n hn]
      norm_num
    · simp only [natDigitsGo, if_neg hn]
      rw [ih (n / 10) _ (by omega)]
      show digitsToNatAcc (10 * (n / 10) + digitVal (digitChar (n % 10))) acc
            = digitsToNatAcc n acc
      rw [digitVal_digitChar (n % 10) (by omega)]
      congr 1
      omega

/-- The decimal reader inverts the decimal printer. -/
theorem digitsToNat_natDigits (n : Nat) : digitsToNat (natDigits n) = n := by
  show digitsToNatAcc 0 (natDigitsGo (n + 1) n []) = n
  rw [natDigitsGo_sound (n + 1) n [] (by omega)]
  rfl

/-! ### C10 — helper lemmas: one serialized entry -/

/-- On a non-negative value the integer printer is the natural printer. -/
theorem intChars_nonneg {i : Int} (h : 0 ≤ i) : intChars i = natDigits i.toNat := by
  rw [intChars, if_neg (not_lt.mpr h)]

/-- The serialized entry, with its pieces exposed as list constructors. -/
theorem entryChars_shape (it : CptLineItem) (h : 0 ≤ it.minutes) :
    entryChars it
      = it.code.data ++ ' ' :: '(' ::
          (natDigits it.minutes.toNat ++ ' ' :: 'm' :: 'i' :: 'n' :: [')']) := by
  simp only [entryChars, intChars_nonneg h]

/-- A serialized entry contains no comma (codes made of word characters). -/
theorem entryChars_no_comma (it : CptLineItem)
    (hw : it.code.data.all isWordChar = true) (hm : 0 ≤ it.minutes) :
    ∀ c ∈ entryChars it, c ≠ ',' := by
  intro c hc
  rw [entryChars_shape it hm] at hc
  rcases List.mem_append.mp hc with hcode | hrest
  · exact ne_comma_of_word (List.all_eq_true.mp hw c hcode)
  · rcases hrest with _ | ⟨_, hrest⟩
    · decide
    rcases hrest with _ | ⟨_, hrest⟩
    · decide
    rcases List.mem_append.mp hrest with hdig | htail
    · have : c.isDigit = true :=
        List.all_eq_true.mp (natDigits_all_digit it.minutes.toNat) c hdig
      exact ne_comma_of_digit this
    · fin_cases htail <;> decide

/-- A serialized entry is its own trim: it starts with a word character
and ends with the closing parenthesis. -/
theorem trimChars_entryChars (it : CptLineItem) (hne : it.code.data ≠ [])
    (hw : it.code.data.all isWordChar = true) (hm : 0 ≤ it.minutes) :
    trimChars (entryChars it) = entryChars it := by
  obtain ⟨c, cs, hcode⟩ : ∃ c cs, it.code.data = c :: cs := by
    cases hc : it.code.data with
    | nil => exact absurd hc hne
    | cons a b => exact ⟨a, b, rfl⟩
  have hcw : isWordChar c = true :=
    List.all_eq_true.mp hw c (by rw [hcode]; exact List.mem_cons_self c cs)
  refine trimChars_eq_self ?_ ?_
  · have hE : entryChars it = c :: (cs ++ ' ' :: '(' ::
        (natDigits it.minutes.toNat ++ ' ' :: 'm' :: 'i' :: 'n' :: [')'])) := by
      rw [entryChars_shape it hm, hcode]
      rfl
    rw [hE]
    simp [List.dropWhile_cons, not_space_of_word hcw]
  · have hsplit : entryChars it
        = (it.code.data ++ ' ' :: '(' ::
            (natDigits it.minutes.toNat ++ [' ', 'm', 'i', 'n'])) ++ [')'] := by
      rw [entryChars_shape it hm]
      simp
    rw [hsplit, List.reverse_append]
    have hcons : ([')'] : List Char).reverse
          ++ (it.code.data ++ ' ' :: '(' ::
              (natDigits it.minutes.toNat ++ [' ', 'm', 'i', 'n'])).reverse
        = ')' :: (it.code.data ++ ' ' :: '(' ::
              (natDigits it.minutes.toNat ++ [' ', 'm', 'i', 'n'])).reverse := rfl
    rw [hcons, List.dropWhile_cons, if_neg (by decide : ¬ (isSpaceChar ')' = true))]

/-! ### C10 — the matcher on a well-formed serialized entry -/

/-- Strings are determined by their character data. -/
theorem string_mk_data (s : String) : String.mk s.data = s := by
  cases s
  rfl

/-- The regex matcher recovers a well-formed line item from its
serialized entry: the `(\w+)` group captures exactly the code (greedy,
stopped by the blank) and the `(\d+)` group exactly the printed
minutes. -/
theorem matchEntry_entryChars (it : CptLineItem) (hg : goodItem it) :
    matchEntry (entryChars it) = some it := by
  obtain ⟨code, minu⟩ := it
  obtain ⟨hne, hw, hm⟩ := hg
  have hE := entryChars_shape { code := code, minutes := minu } hm
  simp only at hE hne hw hm
  obtain ⟨c, cs, hcode⟩ : ∃ c cs, code.data = c :: cs := by
    cases hc : code.data with
    | nil => exact absurd hc hne
    | cons a b => exact ⟨a, b, rfl⟩
  obtain ⟨d0, ds, hdc⟩ : ∃ d0 ds, natDigits minu.toNat = d0 :: ds := by
    cases hd : natDigits minu.toNat with
    | nil => exact absurd hd (natDigits_ne_nil _)
    | cons a b => exact ⟨a, b, rfl⟩
  have hcall : ∀ x ∈ code.data, isWordChar x = true := List.all_eq_true.mp hw
  have hdall : ∀ x ∈ natDigits minu.toNat, Char.isDigit x = true :=
    List.all_eq_true.mp (natDigits_all_digit _)
  have hafter :
      afterCode (' ' :: '(' ::
          (natDigits minu.toNat ++ ' ' :: 'm' :: 'i' :: 'n' :: [')']))
        = some (natDigits minu.toNat) := by
    have h1 : (' ' :: '(' ::
          (natDigits minu.toNat ++ ' ' :: 'm' :: 'i' :: 'n' :: [')'])).dropWhile isSpaceChar
        = '(' :: (natDigits minu.toNat ++ ' ' :: 'm' :: 'i' :: 'n' :: [')']) := by
      rw [List.dropWhile_cons, if_pos (by decide : isSpaceChar ' ' = true),
          List.dropWhile_cons, if_neg (by decide : ¬ (isSpaceChar '(' = true))]
    have h2 : (natDigits minu.toNat ++
          ' ' :: 'm' :: 'i' :: 'n' :: [')']).dropWhile isSpaceChar
        = natDigits minu.toNat ++ ' ' :: 'm' :: 'i' :: 'n' :: [')'] := by
      rw [hdc, List.cons_append, List.dropWhile_cons,
          if_neg (by simp [not_space_of_digit
            (hdall d0 (by rw [hdc]; exact List.mem_cons_self d0 ds))])]
    have h3 : (natDigits minu.toNat ++
          ' ' :: 'm' :: 'i' :: 'n' :: [')']).takeWhile Char.isDigit
        = natDigits minu.toNat :=
      takeWhile_append_of_all _ ' ' _ hdall (by decide)
    have h4 : (natDigits minu.toNat ++
          ' ' :: 'm' :: 'i' :: 'n' :: [')']).dropWhile Char.isDigit
        = ' ' :: 'm' :: 'i' :: 'n' :: [')'] :=
      dropWhile_append_of_all _ ' ' _ hdall (by decide)
    have hlen : (natDigits minu.toNat).length = ds.length + 1 := by
      rw [hdc]
      rfl
    simp only [afterCode, h1]
    show tryDigits ((natDigits minu.toNat ++
        ' ' :: 'm' :: 'i' :: 'n' :: [')']).dropWhile isSpaceChar) = _
    rw [h2]
    simp only [tryDigits, h3, h4]
    rw [if_neg (by rw [hdc]; exact (by simp : ¬ ((d0 :: ds).isEmpty = true)))]
    rw [hlen]
    simp only [dLoop]
    rw [show (natDigits minu.toNat).drop (ds.length + 1) = [] from by
          rw [← hlen, List.drop_length]]
    rw [if_pos (by decide :
          contAfterDigits ([] ++ ' ' :: 'm' :: 'i' :: 'n' :: [')']) = true)]
    rw [← hlen, List.take_length]
  have htake : (entryChars { code := code, minutes := minu }).takeWhile isWordChar
      = code.data := by
    rw [hE]
    exact takeWhile_append_of_all _ ' ' _ hcall (by decide)
  have hdrop : (entryChars { code := code, minutes := minu }).dropWhile isWordChar
      = ' ' :: '(' :: (natDigits minu.toNat ++ ' ' :: 'm' :: 'i' :: 'n' :: [')']) := by
    rw [hE]
    exact dropWhile_append_of_all _ ' ' _ hcall (by decide)
  have htryAt : tryAt (entryChars { code := code, minutes := minu })
      = some (code.data, natDigits minu.toNat) := by
    simp only [tryAt, htake, hdrop]
    rw [if_neg (by rw [hcode]; exact (by simp : ¬ ((c :: cs).isEmpty = true)))]
    rw [hcode]
    show wLoop (c :: cs) _ (cs.length + 1) = _
    simp only [wLoop]
    rw [show (c :: cs).drop (cs.length + 1) = [] from List.drop_length _]
    show (match afterCode (' ' :: '(' ::
        (natDigits minu.toNat ++ ' ' :: 'm' :: 'i' :: 'n' :: [')'])) with
      | some d => some ((c :: cs).take (cs.length + 1), d)
      | none => wLoop _ _ cs.length) = _
    rw [hafter]
    show some ((c :: cs).take (cs.length + 1), natDigits minu.toNat) = _
    rw [show (c :: cs).take (cs.length + 1) = c :: cs from List.take_length (c :: cs),
        ← hcode]
  have hcw : isWordChar c = true :=
    hcall c (by rw [hcode]; exact List.mem_cons_self c cs)
  have hE2 : entryChars { code := code, minutes := minu }
      = c :: (cs ++ ' ' :: '(' ::
          (natDigits minu.toNat ++ ' ' :: 'm' :: 'i' :: 'n' :: [')'])) := by
    rw [hE, hcode]
    rfl
  have hfm : findMatch (entryChars { code := code, minutes := minu })
      = some (code.data, natDigits minu.toNat) := by
    rw [hE2]
    simp only [findMatch]
    rw [if_pos hcw]
    rw [← hE2, htryAt]
  show (findMatch (entryChars { code := code, minutes := minu })).map _ = _
  rw [hfm]
  simp only [Option.map_some']
  rw [string_mk_data, digitsToNat_natDigits, Int.toNat_of_nonneg hm]

/-! ### C10 — assembling the pieces -/

/-- Prepending a non-separator character extends the first piece. -/
theorem splitOnChar_cons_ne (sep c : Char) (l : List Char) (h : ¬ (c = sep))
    (a : List Char) (b : List (List Char)) (hs : splitOnChar sep l = a :: b) :
    splitOnChar sep (c :: l) = (c :: a) :: b := by
  simp only [splitOnChar, if_neg h, hs]

/-- A serialized entry is never the empty string. -/
theorem entryChars_ne_nil (it : CptLineItem) : entryChars it ≠ [] := by
  simp [entryChars]

/-- Splitting the joined display string on commas and trimming each piece
recovers exactly the serialized entries (the join's `', '` separators
contribute the comma and one leading blank per later piece). -/
theorem trimmed_pieces (its : List CptLineItem) (hg : ∀ it ∈ its, goodItem it) :
    ((splitOnChar ',' (joinCommaSpace (its.map entryChars))).map trimChars)
      = if its = [] then [[]] else its.map entryChars := by
  induction its with
  | nil => rfl
  | cons it rest ih =>
    have hgit := hg it (List.mem_cons_self it rest)
    have htr : trimChars (entryChars it) = entryChars it :=
      trimChars_entryChars it hgit.1 hgit.2.1 hgit.2.2
    have hnc : ∀ c ∈ entryChars it, c ≠ ',' :=
      entryChars_no_comma it hgit.2.1 hgit.2.2
    cases rest with
    | nil =>
      show ((splitOnChar ',' (entryChars it)).map trimChars) = _
      rw [splitOnChar_no_sep ',' _ hnc]
      simp [htr]
    | cons it2 rest2 =>
      have ihh := ih (fun x hx => hg x (List.mem_cons_of_mem it hx))
      rw [if_neg (by simp)] at ihh
      obtain ⟨ph, pt, hpt⟩ :
          ∃ a b, splitOnChar ',' (joinCommaSpace ((it2 :: rest2).map entryChars))
            = a :: b := by
        cases hs : splitOnChar ',' (joinCommaSpace ((it2 :: rest2).map entryChars)) with
        | nil => exact absurd hs (splitOnChar_ne_nil ',' _)
        | cons a b => exact ⟨a, b, rfl⟩
      rw [hpt] at ihh
      have hjoin : joinCommaSpace ((it :: it2 :: rest2).map entryChars)
          = entryChars it ++ ',' :: ' ' ::
              joinCommaSpace ((it2 :: rest2).map entryChars) := rfl
      rw [hjoin, splitOnChar_append ',' _ _, splitOnChar_no_sep ',' _ hnc,
          splitOnChar_cons_ne ',' ' ' _ (by decide) ph pt hpt]
      simp only [List.cons_append, List.nil_append, List.map_cons, htr,
        trimChars_cons_space]
      rw [if_neg (by simp)]
      simp only [List.map_cons] at ihh ⊢
      rw [ihh]

/-- The per-entry matcher, mapped over serialized entries, recovers the
list of line items. -/
theorem filterMap_matchEntry (its : List CptLineItem) (hg : ∀ it ∈ its, goodItem it) :
    (its.map entryChars).filterMap matchEntry = its := by
  induction its with
  | nil => rfl
  | cons y ys ih =>
    have hy := hg y (List.mem_cons_self y ys)
    have hys := fun x hx => hg x (List.mem_cons_of_mem y hx)
    simp only [List.map_cons, List.filterMap_cons, matchEntry_entryChars y hy, ih hys]

/-- Parsing inverts serialization on well-formed line-item lists. -/
theorem parseCpt_serializeCpt (its : List CptLineItem) (hg : ∀ it ∈ its, goodItem it) :
    parseCpt (serializeCpt its) = its := by
  show ((((splitOnChar ',' (joinCommaSpace (its.map entryChars))).map trimChars).filter
      (fun e => !e.isEmpty)).filterMap matchEntry) = its
  rw [trimmed_pieces its hg]
  cases its with
  | nil => rfl
  | cons it rest =>
    rw [if_neg (by simp)]
    have hfil : ((it :: rest).map entryChars).filter (fun e => !e.isEmpty)
        = (it :: rest).map entryChars := by
      rw [List.filter_eq_self]
      intro e he
      obtain ⟨x, _, hx⟩ := List.mem_map.mp he
      simp [← hx, entryChars_ne_nil x]
    rw [hfil]
    exact filterMap_matchEntry (it :: rest) hg

/-- C10 counterexample: the empty code consists vacuously of word
characters only, but the serialized entry ` (30 min)` re-parses — through
the regex engine's backtracking of `(\w+)` into the printed digits — as
the item `{ code: '3', minutes: 0 }`, not the original; the round trip
fails for empty codes. -/
theorem C10_counterexample :
    parseCpt (serializeCpt [{ code := "", minutes := 30 }])
        = [{ code := "3", minutes := 0 }] ∧
    ([{ code := "3", minutes := 0 }] : List CptLineItem)
        ≠ [{ code := "", minutes := 30 }] := by
  decide

/-- C10 amended: for line items whose codes are non-empty and consist
only of word characters and whose minutes are non-negative integers,
re-parsing the serialized display text yields the original list; and a
trailing entry that does not match the pattern is silently dropped,
leaving the parse of the good entries unchanged. -/
theorem C10_roundtrip (items : List CptLineItem) (hg : ∀ it ∈ items, goodItem it) :
    parseCpt (serializeCpt items) = items ∧
    (∀ tail : List Char, (∀ c ∈ tail, c ≠ ',') → matchEntry (trimChars tail) = none →
      parseCpt (serializeCpt items ++ ',' :: tail) = items) := by
  have hmain : parseCpt (serializeCpt items) = items := parseCpt_serializeCpt items hg
  refine ⟨hmain, ?_⟩
  intro tail hnc hno
  show ((((splitOnChar ',' (serializeCpt items ++ ',' :: tail)).map trimChars).filter
      (fun e => !e.isEmpty)).filterMap matchEntry) = items
  rw [splitOnChar_append ',' _ tail, splitOnChar_no_sep ',' tail hnc,
      List.map_append, List.filter_append, List.filterMap_append]
  have h2 : ((([tail].map trimChars).filter (fun e => !e.isEmpty)).filterMap matchEntry)
      = [] := by
    by_cases he : (trimChars tail).isEmpty = true
    · simp [List.filter, he]
    · simp [List.filter, he, List.filterMap, hno]
  rw [h2, List.append_nil]
  exact hmain

/-- C10 witness: the spec's own two-item scenario round-trips, and a
non-matching trailing entry is dropped. -/
theorem C10_witness :
    parseCpt (serializeCpt
        [{ code := "97110", minutes := 30 }, { code := "97112", minutes := 20 }])
      = [{ code := "97110", minutes := 30 }, { code := "97112", minutes := 20 }] ∧
    parseCpt (serializeCpt ([{ code := "97110", minutes := 30 }] : List CptLineItem)
        ++ ',' :: ("@@@").data)
      = [{ code := "97110", minutes := 30 }] :=
  ⟨(C10_roundtrip _ (by decide)).1,
   (C10_roundtrip _ (by decide)).2 (("@@@").data) (by decide) (by decide)⟩
